import Mathlib

/-!
Shallow embedding of the CHIP-8 emulator core (`src/chip/chip8/`):
the machine state (`Chip8` in `src/chip/chip8/mod.rs`), opcode decoding
(`src/chip/chip8/opcodes/mod.rs`), the instruction executors
(`src/chip/chip8/opcodes/{system,program_flow,arithmetic_and_logic}.rs`),
the cycle/timer loop (`Chip8::cycle`), and program loading.

Conventions of the embedding:
* Rust fixed-size arrays become functions `Nat → Nat` / `Nat → Bool`;
  writes become pointwise updates (`upd`, `updB`).  The element types
  (`u8`, `u16`, `bool`) become `Nat`/`Bool`; wrapping arithmetic is
  `% 256` / `% 65536` at the operations that wrap in the source.
* A Rust panic (a failed `assert!`, an out-of-bounds array index, an
  `unimplemented!`/`panic!` arm) becomes `none` in an `Option` result.
* The `rand` sample consumed by opcode `0xCXNN` is passed in as an
  explicit argument `rnd` to `Opcode.execute` and `cycle`.
-/

namespace Emu

/-- Pointwise update of a `Nat`-valued array model: models `a[i] = v`. -/
def upd (f : Nat → Nat) (i v : Nat) : Nat → Nat :=
  fun j => if j = i then v else f j

/-- Pointwise update of a `Bool`-valued array model: models `a[i] = v`. -/
def updB (f : Nat → Bool) (i : Nat) (v : Bool) : Nat → Bool :=
  fun j => if j = i then v else f j

/-- The CHIP-8 machine state, mirroring `struct Chip8` in
`src/chip/chip8/mod.rs` field by field.  `memory` holds the 4096 bytes,
`registers` the 16 byte registers, `output_pins` the 64×32 framebuffer,
`input_pins` the 16 key latches, `stack` the 16 return-address slots. -/
structure Chip8 where
  memory : Nat → Nat
  registers : Nat → Nat
  index : Nat
  program_counter : Nat
  output_pins : Nat → Bool
  delay_timer : Nat
  sound_timer : Nat
  input_pins : Nat → Bool
  stack : Nat → Nat
  stack_pointer : Nat
  cycles_since_timer_dec : Nat
  draw : Bool

/-- Modelled from the spec: `CHIP8_TIMER_RESOLUTION` lives in the
repository's `constants.rs`, which is absent from the sources; §4.4 of
the spec fixes the timer cadence at one decrement per 10 cycles. -/
def CHIP8_TIMER_RESOLUTION : Nat := 10

/-- Modelled from the spec: `CHIP8_MAX_PROGRAM_SIZE` lives in the
repository's `constants.rs`, which is absent from the sources; §4.1 of
the spec fixes the limit at 3584 bytes (4096 − 0x200). -/
def CHIP8_MAX_PROGRAM_SIZE : Nat := 3584

/-- Modelled from the spec: `CHIP8_CHARSET_OFFSET` lives in the
repository's `constants.rs`, which is absent from the sources; the
superseded snapshot `src/chip/mod.rs` uses offset 0x50. -/
def CHIP8_CHARSET_OFFSET : Nat := 0x50

/-- A decoded opcode: the high nibble (`instruction_class`) and the three
payload nibbles, mirroring `Opcode`/`OpcodePayload` in
`src/chip/chip8/opcodes/mod.rs`. -/
structure Opcode where
  instruction_class : Nat
  b0 : Nat
  b1 : Nat
  b2 : Nat

/-- `Opcode::new`: split two bytes into the class nibble and the three
payload nibbles (`opcode[0] >> 4`, `opcode[0] & 0xF`, `opcode[1] >> 4`,
`opcode[1] & 0xF`).  The `% 256` reflect the `u8` type of the bytes. -/
def Opcode.new (hi lo : Nat) : Opcode :=
  { instruction_class := hi % 256 / 16
    b0 := hi % 16
    b1 := lo % 256 / 16
    b2 := lo % 16 }

/-- `OpcodePayload::address`: the 12-bit payload
`bytes[0] << 8 | bytes[1] << 4 | bytes[2]`. -/
def Opcode.address (op : Opcode) : Nat :=
  op.b0 * 256 + op.b1 * 16 + op.b2

/-- First component of `OpcodePayload::reg_and_value`: the register nibble. -/
def Opcode.reg (op : Opcode) : Nat := op.b0

/-- Second component of `OpcodePayload::reg_and_value`:
`bytes[1] << 4 | bytes[2]`. -/
def Opcode.value (op : Opcode) : Nat :=
  op.b1 * 16 + op.b2

/-- `util::increment_program_counter`: `pc = pc.wrapping_add(2)` followed
by `assert!(pc < 4096)` (the failed assert is `none`). -/
def increment_program_counter (s : Chip8) : Option Chip8 :=
  let pc := (s.program_counter + 2) % 65536
  if pc < 4096 then some { s with program_counter := pc } else none

/-- `util::conditional_skip`: increment the program counter when the
condition holds. -/
def conditional_skip (cond : Bool) (s : Chip8) : Option Chip8 :=
  if cond then increment_program_counter s else some s

/-- `SysInstruction::execute` (`src/chip/chip8/opcodes/system.rs`):
`0x00E0` clears the framebuffer and does `pc += 2`; `0x00EE` pops the
stack into `pc` (asserting `stack_pointer > 0`) and then increments;
any other `0x0XYZ` panics. -/
def sysExecute (address : Nat) (s : Chip8) : Option Chip8 :=
  if address = 0x0E0 then
    some { s with output_pins := fun _ => false
                  program_counter := (s.program_counter + 2) % 65536 }
  else if address = 0x0EE then
    if s.stack_pointer > 0 then
      increment_program_counter
        { s with program_counter := s.stack (s.stack_pointer - 1)
                 stack_pointer := s.stack_pointer - 1 }
    else none
  else none

/-- `JmpInstruction::execute` (`0x1NNN`): `pc = NNN`. -/
def jmpExecute (address : Nat) (s : Chip8) : Option Chip8 :=
  some { s with program_counter := address }

/-- `CallInstruction::execute` (`0x2NNN`): assert `stack_pointer < 16`,
store the current `program_counter` in `stack[stack_pointer]`, bump the
stack pointer, and set `pc = NNN`. -/
def callExecute (address : Nat) (s : Chip8) : Option Chip8 :=
  if s.stack_pointer < 16 then
    some { s with stack := upd s.stack s.stack_pointer s.program_counter
                  stack_pointer := s.stack_pointer + 1
                  program_counter := address }
  else none

/-- `SeInstruction::execute` (`0x3XNN`): skip if `registers[X] == NN`,
then increment. -/
def seExecute (reg value : Nat) (s : Chip8) : Option Chip8 :=
  (conditional_skip (s.registers reg == value) s).bind increment_program_counter

/-- `SneInstruction::execute` (`0x4XNN`): skip if `registers[X] != NN`,
then increment. -/
def sneExecute (reg value : Nat) (s : Chip8) : Option Chip8 :=
  (conditional_skip (s.registers reg != value) s).bind increment_program_counter

/-- `SreInstruction::execute` (`0x5XY0`): assert the low nibble is 0,
skip if `registers[X] == registers[Y]`, then increment. -/
def sreExecute (op1 op2 op3 : Nat) (s : Chip8) : Option Chip8 :=
  if op3 = 0 then
    (conditional_skip (s.registers op1 == s.registers op2) s).bind
      increment_program_counter
  else none

/-- `SrneInstruction::execute` (`0x9XY0`): assert the low nibble is 0,
skip if `registers[X] != registers[Y]`, then increment. -/
def srneExecute (op1 op2 op3 : Nat) (s : Chip8) : Option Chip8 :=
  if op3 = 0 then
    (conditional_skip (s.registers op1 != s.registers op2) s).bind
      increment_program_counter
  else none

/-- `LdrInstruction::execute` (`0x6XNN`): `registers[X] = NN`, increment. -/
def ldrExecute (reg value : Nat) (s : Chip8) : Option Chip8 :=
  increment_program_counter { s with registers := upd s.registers reg value }

/-- `AddInstruction::execute` (`0x7XNN`): `registers[X]` gets
`registers[X].wrapping_add(NN)`, increment. -/
def addExecute (reg value : Nat) (s : Chip8) : Option Chip8 :=
  increment_program_counter
    { s with registers := upd s.registers reg ((s.registers reg + value) % 256) }

/-- The inner helper `modify_registers` of `RegInstruction::execute`:
apply `f` to `(registers[r1], registers[r2])`, store the result in
`registers[r1]`, then store the carry (if any) in `registers[0xF]`. -/
def modify_registers (s : Chip8) (r1 r2 : Nat) (f : Nat → Nat → Nat × Option Bool) :
    Chip8 :=
  let p := f (s.registers r1) (s.registers r2)
  let s1 := { s with registers := upd s.registers r1 p.1 }
  match p.2 with
  | some true => { s1 with registers := upd s1.registers 0xF 1 }
  | some false => { s1 with registers := upd s1.registers 0xF 0 }
  | none => s1

/-- `RegInstruction::execute` (`0x8XYZ`): the ALU operations, dispatched
on `Z`; an unknown `Z` panics.  `overflowing_add`/`overflowing_sub` on
`u8` become `% 256` plus an explicit carry/borrow test; the shifts
become `/ 2` and `* 2 % 256` with the shifted-out bit as carry. -/
def regExecute (op1 op2 op3 : Nat) (s : Chip8) : Option Chip8 :=
  (match op3 with
   | 0x0 => some (modify_registers s op1 op2 (fun _ v2 => (v2, none)))
   | 0x1 => some (modify_registers s op1 op2 (fun v1 v2 => (v1 ||| v2, none)))
   | 0x2 => some (modify_registers s op1 op2 (fun v1 v2 => (v1 &&& v2, none)))
   | 0x3 => some (modify_registers s op1 op2 (fun v1 v2 => (v1 ^^^ v2, none)))
   | 0x4 => some (modify_registers s op1 op2 (fun v1 v2 =>
       ((v1 + v2) % 256, some (decide (256 ≤ v1 + v2)))))
   | 0x5 => some (modify_registers s op1 op2 (fun v1 v2 =>
       ((v1 + 256 - v2 % 256) % 256, some (decide (v2 ≤ v1)))))
   | 0x6 => some (modify_registers s op1 op2 (fun v1 _ =>
       (v1 / 2, some (decide (v1 % 2 = 1)))))
   | 0x7 => some (modify_registers s op1 op2 (fun v1 v2 =>
       ((v2 + 256 - v1 % 256) % 256, some (decide (v1 ≤ v2)))))
   | 0xE => some (modify_registers s op1 op2 (fun v1 _ =>
       (v1 * 2 % 256, some (decide (128 ≤ v1 % 256)))))
   | _ => none).bind increment_program_counter

/-- `LdInstruction::execute` (`0xANNN`): `index = NNN`, increment. -/
def ldExecute (address : Nat) (s : Chip8) : Option Chip8 :=
  increment_program_counter { s with index := address }

/-- `JmprInstruction::execute` (`0xBNNN`):
`pc = NNN.wrapping_add(registers[0] as u16)`; no auto-increment. -/
def jmprExecute (address : Nat) (s : Chip8) : Option Chip8 :=
  some { s with program_counter := (address + s.registers 0) % 65536 }

/-- `RndInstruction::execute` (`0xCXNN`): `registers[X] = sample & NN`
where `sample` is drawn from `gen_range(0, 255)`; `rnd % 255` models the
sampled value. -/
def rndExecute (rnd reg value : Nat) (s : Chip8) : Option Chip8 :=
  increment_program_counter
    { s with registers := upd s.registers reg (rnd % 255 &&& value) }

/-- The `translate_gfx` helper of `DrwInstruction::execute`:
`(x % 64) + (y % 32) * 64`. -/
def translate_gfx (x y : Nat) : Nat :=
  x % 64 + y % 32 * 64

/-- One iteration of the inner `while x_pos < 8` loop of
`DrwInstruction::execute`: test sprite bit `0x80 >> x_pos`, set `draw`
when the bit differs from the pixel, record a collision in
`registers[0xF]` and XOR the pixel when the bit is set. -/
def drwPixel (pixel_byte x y x_pos y_pos : Nat) (t : Chip8) : Chip8 :=
  let pixel_bit := decide (0 < pixel_byte &&& (0x80 >>> x_pos))
  let pixel_pos := translate_gfx (x + x_pos) (y + y_pos)
  let t1 := if pixel_bit ≠ t.output_pins pixel_pos then { t with draw := true } else t
  if pixel_bit then
    let t2 := if t1.output_pins pixel_pos then
        { t1 with registers := upd t1.registers 0xF 1 }
      else t1
    { t2 with output_pins := updB t2.output_pins pixel_pos (! t2.output_pins pixel_pos) }
  else t1

/-- `DrwInstruction::execute` (`0xDXYN`): read the sprite origin from
`registers[X]`/`registers[Y]`, clear `registers[0xF]`, XOR the `N` sprite
rows fetched from `memory[(index + row) % 4096]` onto the framebuffer,
then increment. -/
def drwExecute (op1 op2 op3 : Nat) (s : Chip8) : Option Chip8 :=
  let x := s.registers op1
  let y := s.registers op2
  let n := op3
  let s0 := { s with registers := upd s.registers 0xF 0 }
  let s1 := (List.range n).foldl (fun t y_pos =>
    let pixel_byte := t.memory ((t.index + y_pos) % 4096)
    (List.range 8).foldl (fun t2 x_pos => drwPixel pixel_byte x y x_pos y_pos t2) t) s0
  increment_program_counter s1

/-- `SkInstruction::execute` (`0xEXNN`): for `NN = 0x9E`/`0xA1` test
`input_pins[registers[X]]` (an out-of-bounds index panics), skip
accordingly, then increment; other `NN` panic. -/
def skExecute (reg value : Nat) (s : Chip8) : Option Chip8 :=
  (if value = 0x9E then
     (if s.registers reg < 16 then some (s.input_pins (s.registers reg)) else none)
   else if value = 0xA1 then
     (if s.registers reg < 16 then some (! s.input_pins (s.registers reg)) else none)
   else none).bind fun skip =>
    (if skip then increment_program_counter s else some s).bind
      increment_program_counter

/-- The `for i in 0x0..=0xF { if state.input_pins[i] { ... break } }` scan
of `LduInstruction::execute` for `0xFX0A`: return the first set pin
starting at `i`, giving up after `fuel` pins. -/
def findPinFrom (pins : Nat → Bool) : Nat → Nat → Option Nat
  | _, 0 => none
  | i, fuel + 1 => if pins i then some i else findPinFrom pins (i + 1) fuel

/-- The full 16-pin scan of the `0xFX0A` wait-for-key branch. -/
def firstSetPin (pins : Nat → Bool) : Option Nat :=
  findPinFrom pins 0 16

/-- `LduInstruction::execute` (`0xFXNN`), dispatched on `NN`.  The
`0xFX0A` branch returns without incrementing when no pin is set; the
`0xFX29` branch asserts `registers[X] ≤ 0xF`; the `0xFX33` branch
indexes `memory[index + 2]`, `memory[index + 1]`, `memory[index]`
without wrapping, so it panics (out of bounds) unless `index + 2 < 4096`;
`0xFX55`/`0xFX65` wrap their addresses `% 4096`. -/
def lduExecute (reg value : Nat) (s : Chip8) : Option Chip8 :=
  if value = 0x07 then
    increment_program_counter { s with registers := upd s.registers reg s.delay_timer }
  else if value = 0x0A then
    match firstSetPin s.input_pins with
    | some i => increment_program_counter { s with registers := upd s.registers reg i }
    | none => some s
  else if value = 0x15 then
    increment_program_counter { s with delay_timer := s.registers reg }
  else if value = 0x18 then
    increment_program_counter { s with sound_timer := s.registers reg }
  else if value = 0x1E then
    increment_program_counter { s with index := (s.index + s.registers reg) % 65536 }
  else if value = 0x29 then
    if s.registers reg ≤ 0xF then
      increment_program_counter
        { s with index := CHIP8_CHARSET_OFFSET + s.registers reg * 5 }
    else none
  else if value = 0x33 then
    if s.index + 2 < 4096 then
      let m1 := upd s.memory (s.index + 2) (s.registers reg % 10)
      let m2 := upd m1 (s.index + 1) (s.registers reg / 10 % 10)
      let m3 := upd m2 s.index (s.registers reg / 10 / 10 % 10)
      increment_program_counter { s with memory := m3 }
    else none
  else if value = 0x55 then
    let m := (List.range (reg + 1)).foldl
      (fun m r => upd m ((s.index + r) % 4096) (s.registers r)) s.memory
    increment_program_counter { s with memory := m }
  else if value = 0x65 then
    let f := (List.range (reg + 1)).foldl
      (fun f r => upd f r (s.memory ((s.index + r) % 4096))) s.registers
    increment_program_counter { s with registers := f }
  else none

/-- `Opcode::execute`: dispatch on the instruction class, mirroring the
`match self.instruction_class` in `src/chip/chip8/opcodes/mod.rs`; the
payload is reinterpreted exactly as the `TryFrom` conversions do. -/
def Opcode.execute (rnd : Nat) (op : Opcode) (s : Chip8) : Option Chip8 :=
  match op.instruction_class with
  | 0x0 => sysExecute op.address s
  | 0x1 => jmpExecute op.address s
  | 0x2 => callExecute op.address s
  | 0x3 => seExecute op.reg op.value s
  | 0x4 => sneExecute op.reg op.value s
  | 0x5 => sreExecute op.b0 op.b1 op.b2 s
  | 0x6 => ldrExecute op.reg op.value s
  | 0x7 => addExecute op.reg op.value s
  | 0x8 => regExecute op.b0 op.b1 op.b2 s
  | 0x9 => srneExecute op.b0 op.b1 op.b2 s
  | 0xA => ldExecute op.address s
  | 0xB => jmprExecute op.address s
  | 0xC => rndExecute rnd op.reg op.value s
  | 0xD => drwExecute op.b0 op.b1 op.b2 s
  | 0xE => skExecute op.reg op.value s
  | 0xF => lduExecute op.reg op.value s
  | _ => none

/-- `Chip8::next_instruction`: assert `pc ≤ 4094`, then decode the two
bytes at the program counter. -/
def next_instruction (s : Chip8) : Option Opcode :=
  if s.program_counter ≤ 4094 then
    some (Opcode.new (s.memory s.program_counter) (s.memory (s.program_counter + 1)))
  else none

/-- The timer epilogue of `Chip8::cycle`: bump `cycles_since_timer_dec`
(a `u8`, hence `% 256`); when the bumped counter is divisible by
`CHIP8_TIMER_RESOLUTION`, decrement each non-zero timer and reset the
counter to 0. -/
def tick (s : Chip8) : Chip8 :=
  let c := (s.cycles_since_timer_dec + 1) % 256
  let s1 := { s with cycles_since_timer_dec := c }
  if c % CHIP8_TIMER_RESOLUTION = 0 then
    let s2 := if s1.delay_timer > 0 then { s1 with delay_timer := s1.delay_timer - 1 } else s1
    let s3 := if s2.sound_timer > 0 then { s2 with sound_timer := s2.sound_timer - 1 } else s2
    { s3 with cycles_since_timer_dec := 0 }
  else s1

/-- `Chip8::cycle`: fetch, execute, then run the timer epilogue. -/
def cycle (rnd : Nat) (s : Chip8) : Option Chip8 :=
  ((next_instruction s).bind (fun op => op.execute rnd s)).map tick

/-- The error type returned by program loading; `ProgramTooLarge` carries
the byte length, as in the repository's `LoadProgramError`. -/
inductive LoadProgramError where
  | ProgramTooLarge : Nat → LoadProgramError
deriving DecidableEq

/-- `Chip8::set_memory_byte`: assert the address is in range, then write. -/
def set_memory_byte (byte index : Nat) (s : Chip8) : Option Chip8 :=
  if index < 4096 then some { s with memory := upd s.memory index byte } else none

/-- `Chip8::load_program_bytes`: copy the buffer to `memory[0x200..]`
one byte at a time via `set_memory_byte`. -/
def load_program_bytes (program : List Nat) (s : Chip8) : Option Chip8 :=
  (List.range program.length).foldl
    (fun acc i => acc.bind (set_memory_byte (program.getD i 0) (0x200 + i))) (some s)

/-- The post-read core of `Chip8::load_program`
(`src/chip/chip8/mod.rs`, lines 95–101): reject the buffer with
`ProgramTooLarge` before touching memory when it exceeds
`CHIP8_MAX_PROGRAM_SIZE`, otherwise copy it and return the byte count.
The outer `Option` is the panic layer; the pair returns the `Result`
together with the (possibly updated) machine. -/
def load_program (program : List Nat) (s : Chip8) :
    Option (Except LoadProgramError Nat × Chip8) :=
  if program.length > CHIP8_MAX_PROGRAM_SIZE then
    some (Except.error (LoadProgramError.ProgramTooLarge program.length), s)
  else
    (load_program_bytes program s).map (fun t => (Except.ok program.length, t))

/-- A machine with blank memory, cleared registers and pins, and the
reset program counter 0x200 (the font preload of `Chip8::new` is
irrelevant to the properties below and omitted). -/
def baseState : Chip8 :=
  { memory := fun _ => 0
    registers := fun _ => 0
    index := 0
    program_counter := 0x200
    output_pins := fun _ => false
    delay_timer := 0
    sound_timer := 0
    input_pins := fun _ => false
    stack := fun _ => 0
    stack_pointer := 0
    cycles_since_timer_dec := 0
    draw := false }

/-- Write a two-byte instruction at 0x200, as the repository's test
helper `prepare_state_with_single_instruction` does. -/
def withInstruction (hi lo : Nat) (s : Chip8) : Chip8 :=
  { s with memory := upd (upd s.memory 0x200 hi) 0x201 lo }

/-- Iterate `cycle` (with random input 0) from a state, keeping the last
state on a panic; used to build concrete execution traces. -/
def cycleIter (s : Chip8) : Nat → Chip8
  | 0 => s
  | k + 1 => (cycle 0 (cycleIter s k)).getD s

/-- Concrete state for the ALU-add witness: V5 = 200, V6 = 100. -/
def c3w : Chip8 :=
  { baseState with registers := upd (upd baseState.registers 5 200) 6 100 }

/-- Concrete state for the JP V0 example: instruction 0xBFFF at pc 0x200
with V0 = 0xFF. -/
def c4s : Chip8 :=
  { withInstruction 0xBF 0xFF baseState with
    registers := upd baseState.registers 0 0xFF }

/-- Concrete state for the BCD out-of-bounds example: instruction 0xF033
at pc 0x200 with index = 4094. -/
def c5s : Chip8 :=
  { withInstruction 0xF0 0x33 baseState with index := 4094 }

/-- Concrete state for the BCD witness: instruction 0xF033 at pc 0x200
with index = 0x400 and V0 = 255. -/
def c5w : Chip8 :=
  { withInstruction 0xF0 0x33 baseState with
    index := 0x400
    registers := upd baseState.registers 0 255 }

/-- Concrete state for the wait-for-key scenario: instruction 0xF50A at
pc 0x200, no input pin set. -/
def c6s : Chip8 := withInstruction 0xF5 0x0A baseState

/-- Concrete state for the timer-cadence scenario: a self-jump 0x1200 at
pc 0x200 with delay_timer = 1 and sound_timer = 5. -/
def c7s : Chip8 :=
  { withInstruction 0x12 0x00 baseState with
    delay_timer := 1
    sound_timer := 5 }

/-- Concrete state for the SKP out-of-range example: instruction 0xE59E
at pc 0x200 with V5 = 20. -/
def c9s : Chip8 :=
  { withInstruction 0xE5 0x9E baseState with
    registers := upd baseState.registers 5 20 }

/-- Concrete state for the waiting-cycle frame witness: instruction
0xF50A at pc 0x200 with cycles_since_timer_dec = 9 and delay_timer = 3. -/
def c10s : Chip8 :=
  { withInstruction 0xF5 0x0A baseState with
    cycles_since_timer_dec := 9
    delay_timer := 3 }

end Emu

namespace Emu

/-- Concrete state for the CALL example: instruction 0x2CAF at pc 0x200. -/
def c1s : Chip8 := withInstruction 0x2C 0xAF baseState

/-- Concrete state for the CLS example: instruction 0x00E0 at pc 0x200 and
one lit pixel. -/
def c2s : Chip8 :=
  { withInstruction 0x00 0xE0 baseState with
    output_pins := updB baseState.output_pins 0 true }

/-- Concrete state for the ALU-add aliasing example: instruction 0x8F04 at
pc 0x200 with VF = 1 and V0 = 1. -/
def c3s : Chip8 :=
  { withInstruction 0x8F 0x04 baseState with
    registers := upd (upd baseState.registers 0xF 1) 0x0 1 }

theorem increment_pc_lt {s t : Chip8} (h : increment_program_counter s = some t) :
    t.program_counter < 4096 := by
  simp only [increment_program_counter] at h
  split at h
  · cases h; assumption
  · cases h

theorem increment_pc_eq {s : Chip8} (h : (s.program_counter + 2) % 65536 < 4096) :
    increment_program_counter s =
      some { s with program_counter := (s.program_counter + 2) % 65536 } := by
  unfold increment_program_counter
  rw [if_pos h]

theorem bind_increment_pc_lt {o : Option Chip8} {t : Chip8}
    (h : o.bind increment_program_counter = some t) : t.program_counter < 4096 := by
  cases o with
  | none => cases h
  | some u => exact increment_pc_lt h

theorem tick_pc (s : Chip8) : (tick s).program_counter = s.program_counter := by
  simp only [tick]
  split <;> first | rfl | (split <;> split <;> rfl)

theorem tick_memory (s : Chip8) : (tick s).memory = s.memory := by
  simp only [tick]
  split <;> first | rfl | (split <;> split <;> rfl)

theorem tick_registers (s : Chip8) : (tick s).registers = s.registers := by
  simp only [tick]
  split <;> first | rfl | (split <;> split <;> rfl)

theorem tick_index (s : Chip8) : (tick s).index = s.index := by
  simp only [tick]
  split <;> first | rfl | (split <;> split <;> rfl)

theorem tick_output_pins (s : Chip8) : (tick s).output_pins = s.output_pins := by
  simp only [tick]
  split <;> first | rfl | (split <;> split <;> rfl)

theorem tick_input_pins (s : Chip8) : (tick s).input_pins = s.input_pins := by
  simp only [tick]
  split <;> first | rfl | (split <;> split <;> rfl)

theorem tick_stack (s : Chip8) : (tick s).stack = s.stack := by
  simp only [tick]
  split <;> first | rfl | (split <;> split <;> rfl)

theorem tick_stack_pointer (s : Chip8) : (tick s).stack_pointer = s.stack_pointer := by
  simp only [tick]
  split <;> first | rfl | (split <;> split <;> rfl)

theorem tick_draw (s : Chip8) : (tick s).draw = s.draw := by
  simp only [tick]
  split <;> first | rfl | (split <;> split <;> rfl)

theorem next_instruction_eq {s : Chip8} (h : s.program_counter ≤ 4094) :
    next_instruction s =
      some (Opcode.new (s.memory s.program_counter) (s.memory (s.program_counter + 1))) := by
  unfold next_instruction
  rw [if_pos h]

theorem cycle_eq {s : Chip8} (rnd : Nat) (h : s.program_counter ≤ 4094) :
    cycle rnd s =
      ((Opcode.new (s.memory s.program_counter)
          (s.memory (s.program_counter + 1))).execute rnd s).map tick := by
  unfold cycle
  rw [next_instruction_eq h]
  rfl

theorem execute_class0 {op : Opcode} (rnd : Nat) (s : Chip8)
    (h : op.instruction_class = 0x0) : op.execute rnd s = sysExecute op.address s := by
  obtain ⟨ic, b0, b1, b2⟩ := op
  have h2 : ic = 0x0 := h
  subst h2
  rfl

theorem execute_class1 {op : Opcode} (rnd : Nat) (s : Chip8)
    (h : op.instruction_class = 0x1) : op.execute rnd s = jmpExecute op.address s := by
  obtain ⟨ic, b0, b1, b2⟩ := op
  have h2 : ic = 0x1 := h
  subst h2
  rfl

theorem execute_class2 {op : Opcode} (rnd : Nat) (s : Chip8)
    (h : op.instruction_class = 0x2) : op.execute rnd s = callExecute op.address s := by
  obtain ⟨ic, b0, b1, b2⟩ := op
  have h2 : ic = 0x2 := h
  subst h2
  rfl

theorem execute_class3 {op : Opcode} (rnd : Nat) (s : Chip8)
    (h : op.instruction_class = 0x3) : op.execute rnd s = seExecute op.reg op.value s := by
  obtain ⟨ic, b0, b1, b2⟩ := op
  have h2 : ic = 0x3 := h
  subst h2
  rfl

theorem execute_class4 {op : Opcode} (rnd : Nat) (s : Chip8)
    (h : op.instruction_class = 0x4) : op.execute rnd s = sneExecute op.reg op.value s := by
  obtain ⟨ic, b0, b1, b2⟩ := op
  have h2 : ic = 0x4 := h
  subst h2
  rfl

theorem execute_class5 {op : Opcode} (rnd : Nat) (s : Chip8)
    (h : op.instruction_class = 0x5) : op.execute rnd s = sreExecute op.b0 op.b1 op.b2 s := by
  obtain ⟨ic, b0, b1, b2⟩ := op
  have h2 : ic = 0x5 := h
  subst h2
  rfl

theorem execute_class6 {op : Opcode} (rnd : Nat) (s : Chip8)
    (h : op.instruction_class = 0x6) : op.execute rnd s = ldrExecute op.reg op.value s := by
  obtain ⟨ic, b0, b1, b2⟩ := op
  have h2 : ic = 0x6 := h
  subst h2
  rfl

theorem execute_class7 {op : Opcode} (rnd : Nat) (s : Chip8)
    (h : op.instruction_class = 0x7) : op.execute rnd s = addExecute op.reg op.value s := by
  obtain ⟨ic, b0, b1, b2⟩ := op
  have h2 : ic = 0x7 := h
  subst h2
  rfl

theorem execute_class8 {op : Opcode} (rnd : Nat) (s : Chip8)
    (h : op.instruction_class = 0x8) : op.execute rnd s = regExecute op.b0 op.b1 op.b2 s := by
  obtain ⟨ic, b0, b1, b2⟩ := op
  have h2 : ic = 0x8 := h
  subst h2
  rfl

theorem execute_class9 {op : Opcode} (rnd : Nat) (s : Chip8)
    (h : op.instruction_class = 0x9) : op.execute rnd s = srneExecute op.b0 op.b1 op.b2 s := by
  obtain ⟨ic, b0, b1, b2⟩ := op
  have h2 : ic = 0x9 := h
  subst h2
  rfl

theorem execute_classA {op : Opcode} (rnd : Nat) (s : Chip8)
    (h : op.instruction_class = 0xA) : op.execute rnd s = ldExecute op.address s := by
  obtain ⟨ic, b0, b1, b2⟩ := op
  have h2 : ic = 0xA := h
  subst h2
  rfl

theorem execute_classB {op : Opcode} (rnd : Nat) (s : Chip8)
    (h : op.instruction_class = 0xB) : op.execute rnd s = jmprExecute op.address s := by
  obtain ⟨ic, b0, b1, b2⟩ := op
  have h2 : ic = 0xB := h
  subst h2
  rfl

theorem execute_classC {op : Opcode} (rnd : Nat) (s : Chip8)
    (h : op.instruction_class = 0xC) : op.execute rnd s = rndExecute rnd op.reg op.value s := by
  obtain ⟨ic, b0, b1, b2⟩ := op
  have h2 : ic = 0xC := h
  subst h2
  rfl

theorem execute_classD {op : Opcode} (rnd : Nat) (s : Chip8)
    (h : op.instruction_class = 0xD) : op.execute rnd s = drwExecute op.b0 op.b1 op.b2 s := by
  obtain ⟨ic, b0, b1, b2⟩ := op
  have h2 : ic = 0xD := h
  subst h2
  rfl

theorem execute_classE {op : Opcode} (rnd : Nat) (s : Chip8)
    (h : op.instruction_class = 0xE) : op.execute rnd s = skExecute op.reg op.value s := by
  obtain ⟨ic, b0, b1, b2⟩ := op
  have h2 : ic = 0xE := h
  subst h2
  rfl

theorem execute_classF {op : Opcode} (rnd : Nat) (s : Chip8)
    (h : op.instruction_class = 0xF) : op.execute rnd s = lduExecute op.reg op.value s := by
  obtain ⟨ic, b0, b1, b2⟩ := op
  have h2 : ic = 0xF := h
  subst h2
  rfl

end Emu

namespace Emu

/-- C1 counterexample: running `cycle` on instruction 0x2CAF at pc 0x200
with an empty stack yields pc = 0xCAF and stack top 0x200 — the raw
call-site program counter, not the return address 0x202 the claim
demands. -/
theorem call_stack_top_not_return_address :
    (cycle 0 c1s).map (fun t => (t.program_counter, t.stack_pointer, t.stack 0)) =
      some (0xCAF, 1, 0x200) ∧ (0x200 : Nat) ≠ 0x202 :=
  ⟨by decide, by decide⟩

/-- C1 (amended): executing CALL (0x2NNN) from a state with
`stack_pointer < 16` pushes the RAW call-site program counter (not
pc + 2) onto the stack, increments the stack pointer, and sets
pc = NNN (`RET` compensates by incrementing after popping). -/
theorem call_pushes_call_site_pc (s : Chip8) (rnd : Nat)
    (hpc : s.program_counter ≤ 4094)
    (hsp : s.stack_pointer < 16)
    (hclass : s.memory s.program_counter % 256 / 16 = 0x2) :
    (cycle rnd s).map
        (fun t => (t.program_counter, t.stack_pointer, t.stack s.stack_pointer)) =
      some ((Opcode.new (s.memory s.program_counter)
               (s.memory (s.program_counter + 1))).address,
            s.stack_pointer + 1, s.program_counter) := by
  rw [cycle_eq rnd hpc]
  rw [execute_class2 rnd s hclass]
  unfold callExecute
  rw [if_pos hsp]
  simp only [Option.map_some, Option.map]
  simp only [tick_pc, tick_stack_pointer, tick_stack]
  simp [upd]

/-- C1 witness: the amended theorem instantiated at the concrete 0x2CAF
call from pc 0x200. -/
theorem call_pushes_call_site_pc_witness :
    c1s.program_counter ≤ 4094 ∧ c1s.stack_pointer < 16 ∧
    c1s.memory c1s.program_counter % 256 / 16 = 0x2 ∧
    (cycle 0 c1s).map
        (fun t => (t.program_counter, t.stack_pointer, t.stack c1s.stack_pointer)) =
      some ((Opcode.new (c1s.memory c1s.program_counter)
               (c1s.memory (c1s.program_counter + 1))).address,
            c1s.stack_pointer + 1, c1s.program_counter) :=
  ⟨by decide, by decide, by decide,
    call_pushes_call_site_pc c1s 0 (by decide) (by decide) (by decide)⟩

/-- C2 failing input: CLS (0x00E0) executed from a state with a clear
draw flag and a lit pixel clears the pixel — a framebuffer change — yet
leaves the draw flag clear, contradicting the claim (and the `draw`
field's own documentation) that the flag is set whenever a DRW/CLS
changes any pixel. -/
theorem cls_clears_pixels_without_setting_draw :
    c2s.draw = false ∧ c2s.output_pins 0 = true ∧
    (cycle 0 c2s).map (fun t => (t.output_pins 0, t.draw)) = some (false, false) :=
  ⟨by decide, by decide, by decide⟩

/-- C3 counterexample: executing 0x8F04 (X = 0xF, Y = 0) from a state
with VF = 1 and V0 = 1 leaves VF = 0 (the carry overwrites the sum),
while the claim demands Vx = VF = (1 + 1) % 256 = 2. -/
theorem addreg_vf_alias_counterexample :
    c3s.registers 0xF = 1 ∧ c3s.registers 0x0 = 1 ∧
    (Opcode.execute 0 (Opcode.new 0x8F 0x04) c3s).map (fun t => t.registers 0xF) =
      some 0 ∧ (0 : Nat) ≠ (1 + 1) % 256 :=
  ⟨by decide, by decide, by decide, by decide⟩

/-- C3 (amended): for all byte pairs (a, b) and register indices X ≠ 0xF
and Y, executing 0x8XY4 with Vx = a and Vy = b yields
Vx = (a + b) % 256 and VF = 1 iff a + b > 255; when X = 0xF the carry
write overwrites the stored sum, so the claim's Vx clause fails there. -/
theorem addreg_sum_and_carry (s : Chip8) (rnd X Y a b : Nat)
    (hX : X < 16) (hY : Y < 16) (hXF : X ≠ 0xF)
    (ha : s.registers X = a) (hb : s.registers Y = b)
    (ha8 : a < 256) (hb8 : b < 256)
    (hpc : (s.program_counter + 2) % 65536 < 4096) :
    (Opcode.execute rnd (Opcode.new (0x80 + X) (16 * Y + 4)) s).map
        (fun t => (t.registers X, t.registers 0xF)) =
      some ((a + b) % 256, if 255 < a + b then 1 else 0) := by
  have hop : Opcode.new (0x80 + X) (16 * Y + 4) = ⟨0x8, X, Y, 4⟩ := by
    unfold Opcode.new
    congr 1 <;> omega
  rw [hop]
  rw [execute_class8 rnd s rfl]
  have e1 : regExecute X Y 4 s =
      (some (modify_registers s X Y (fun v1 v2 =>
        ((v1 + v2) % 256, some (decide (256 ≤ v1 + v2)))))).bind
        increment_program_counter := rfl
  rw [e1]
  by_cases hc : 256 ≤ a + b
  · have e2 : modify_registers s X Y (fun v1 v2 =>
        ((v1 + v2) % 256, some (decide (256 ≤ v1 + v2)))) =
        { s with registers := upd (upd s.registers X ((a + b) % 256)) 0xF 1 } := by
      unfold modify_registers
      simp only [ha, hb, decide_eq_true hc]
    rw [e2]
    show (increment_program_counter _).map _ = _
    have hgt : 255 < a + b := hc
    simp [increment_program_counter, hpc, upd, hXF, hgt]
  · have e2 : modify_registers s X Y (fun v1 v2 =>
        ((v1 + v2) % 256, some (decide (256 ≤ v1 + v2)))) =
        { s with registers := upd (upd s.registers X ((a + b) % 256)) 0xF 0 } := by
      unfold modify_registers
      simp only [ha, hb, decide_eq_false hc]
    rw [e2]
    show (increment_program_counter _).map _ = _
    have hle : ¬ 255 < a + b := hc
    simp [increment_program_counter, hpc, upd, hXF, hle]
end Emu

namespace Emu

/-- C3 witness: the amended ALU-add theorem at X = 5, Y = 6, a = 200,
b = 100 (an overflowing pair). -/
theorem addreg_sum_and_carry_witness :
    (5 : Nat) < 16 ∧ (6 : Nat) < 16 ∧ (5 : Nat) ≠ 0xF ∧
    c3w.registers 5 = 200 ∧ c3w.registers 6 = 100 ∧
    (200 : Nat) < 256 ∧ (100 : Nat) < 256 ∧
    (c3w.program_counter + 2) % 65536 < 4096 ∧
    (Opcode.execute 0 (Opcode.new (0x80 + 5) (16 * 6 + 4)) c3w).map
        (fun t => (t.registers 5, t.registers 0xF)) =
      some ((200 + 100) % 256, if 255 < 200 + 100 then 1 else 0) :=
  ⟨by decide, by decide, by decide, by decide, by decide, by decide, by decide,
    by decide,
    addreg_sum_and_carry c3w 0 5 6 200 100 (by decide) (by decide) (by decide)
      (by decide) (by decide) (by decide) (by decide) (by decide)⟩

/-- C5 counterexample: executing BCD (0xF033) with index = 4094 panics
(out-of-bounds memory access), refuting the claim that the instruction
succeeds for every 16-bit index value with accesses wrapping mod 4096. -/
theorem bcd_out_of_bounds_at_4094 :
    c5s.index = 4094 ∧ Opcode.execute 0 (Opcode.new 0xF0 0x33) c5s = none :=
  ⟨rfl, rfl⟩

/-- C5 (amended): executing BCD (0xFX33) succeeds only for
index ≤ 4093 — the three memory accesses do NOT wrap mod 4096 — and then
writes the decimal digits of Vx, most significant first, to the
unwrapped addresses index, index + 1, index + 2. -/
theorem bcd_writes_digits_unwrapped (s : Chip8) (rnd X : Nat)
    (hX : X < 16)
    (hidx : s.index ≤ 4093)
    (hpc : (s.program_counter + 2) % 65536 < 4096) :
    (Opcode.execute rnd (Opcode.new (0xF0 + X) 0x33) s).map
        (fun t => (t.memory s.index, t.memory (s.index + 1), t.memory (s.index + 2))) =
      some (s.registers X / 10 / 10 % 10, s.registers X / 10 % 10, s.registers X % 10) := by
  have hop : Opcode.new (0xF0 + X) 0x33 = ⟨0xF, X, 3, 3⟩ := by
    unfold Opcode.new
    congr 1 <;> omega
  rw [hop, execute_classF rnd s rfl]
  have e1 : lduExecute X 51 s = (if s.index + 2 < 4096 then increment_program_counter { s with memory := upd (upd (upd s.memory (s.index + 2) (s.registers X % 10)) (s.index + 1) (s.registers X / 10 % 10)) s.index (s.registers X / 10 / 10 % 10) } else none) := rfl
  show (lduExecute X 51 s).map _ = _
  rw [e1, if_pos (by omega : s.index + 2 < 4096)]
  have h1 : s.index + 1 ≠ s.index := by omega
  have h2 : s.index + 2 ≠ s.index := by omega
  have h3 : s.index + 2 ≠ s.index + 1 := by omega
  simp [increment_program_counter, hpc, upd, h1, h2, h3]

/-- C5 witness: the amended BCD theorem at index 0x400 with V0 = 255,
reproducing the spec's 255 ↦ (2, 5, 5) example. -/
theorem bcd_writes_digits_unwrapped_witness :
    (0 : Nat) < 16 ∧ c5w.index ≤ 4093 ∧ (c5w.program_counter + 2) % 65536 < 4096 ∧
    (Opcode.execute 0 (Opcode.new (0xF0 + 0) 0x33) c5w).map
        (fun t => (t.memory c5w.index, t.memory (c5w.index + 1), t.memory (c5w.index + 2))) =
      some (c5w.registers 0 / 10 / 10 % 10, c5w.registers 0 / 10 % 10, c5w.registers 0 % 10) :=
  ⟨by decide, by decide, by decide,
    bcd_writes_digits_unwrapped c5w 0 0 (by decide) (by decide) (by decide)⟩

theorem increment_ne_none {s : Chip8} (h : s.program_counter + 2 < 4096) :
    increment_program_counter s ≠ none := by
  rw [increment_pc_eq (by rw [Nat.mod_eq_of_lt (by omega)]; exact h)]
  exact Option.some_ne_none _

theorem increment_twice_ne_none {s : Chip8} (h : s.program_counter + 4 < 4096) :
    (increment_program_counter s).bind increment_program_counter ≠ none := by
  have h2 : (s.program_counter + 2) % 65536 = s.program_counter + 2 :=
    Nat.mod_eq_of_lt (by omega)
  rw [increment_pc_eq (by rw [h2]; omega)]
  show increment_program_counter _ ≠ none
  apply increment_ne_none
  show (s.program_counter + 2) % 65536 + 2 < 4096
  rw [h2]
  omega

/-- C9: the SKP/SKNP executors (0xEX9E / 0xEXA1) index the 16-entry
input-pin array with the full 8-bit value of registers[X]: execution
panics (out of bounds) whenever registers[X] ≥ 16, and the error branch
is unreachable when registers[X] < 16 (completion then only depends on
the program-counter asserts). -/
theorem skp_sknp_pin_index_bound (s : Chip8) (rnd hi lo : Nat)
    (hclass : hi % 256 / 16 = 0xE)
    (hval : lo % 256 = 0x9E ∨ lo % 256 = 0xA1) :
    (16 ≤ s.registers (hi % 16) →
      Opcode.execute rnd (Opcode.new hi lo) s = none) ∧
    (s.registers (hi % 16) < 16 → s.program_counter + 4 < 4096 →
      Opcode.execute rnd (Opcode.new hi lo) s ≠ none) := by
  have hreg : (Opcode.new hi lo).reg = hi % 16 := rfl
  have hvalue : (Opcode.new hi lo).value = lo % 256 := by
    unfold Opcode.new Opcode.value
    dsimp only
    omega
  constructor
  · intro hge
    rw [execute_classE rnd s hclass]
    rw [hreg, hvalue]
    unfold skExecute
    rcases hval with h | h <;> rw [h]
    · rw [if_pos rfl, if_neg (by omega)]
      rfl
    · rw [if_neg (by norm_num), if_pos rfl, if_neg (by omega)]
      rfl
  · intro hlt hpc4
    rw [execute_classE rnd s hclass]
    rw [hreg, hvalue]
    unfold skExecute
    rcases hval with h | h <;> rw [h]
    · rw [if_pos rfl, if_pos hlt]
      cases hb : s.input_pins (s.registers (hi % 16)) with
      | true =>
        show (increment_program_counter s).bind increment_program_counter ≠ none
        exact increment_twice_ne_none hpc4
      | false =>
        show increment_program_counter s ≠ none
        exact increment_ne_none (by omega)
    · rw [if_neg (by norm_num), if_pos rfl, if_pos hlt]
      cases hb : s.input_pins (s.registers (hi % 16)) with
      | true =>
        show increment_program_counter s ≠ none
        exact increment_ne_none (by omega)
      | false =>
        show (increment_program_counter s).bind increment_program_counter ≠ none
        exact increment_twice_ne_none hpc4

/-- C9 witness: the bound theorem at instruction 0xE59E with V5 = 20,
where execution indeed panics. -/
theorem skp_sknp_pin_index_bound_witness :
    (0xE5 : Nat) % 256 / 16 = 0xE ∧ (0x9E : Nat) % 256 = 0x9E ∧
    (16 ≤ c9s.registers (0xE5 % 16) →
      Opcode.execute 0 (Opcode.new 0xE5 0x9E) c9s = none) ∧
    Opcode.execute 0 (Opcode.new 0xE5 0x9E) c9s = none :=
  ⟨by decide, by decide,
    (skp_sknp_pin_index_bound c9s 0 0xE5 0x9E (by decide) (Or.inl (by decide))).1,
    (skp_sknp_pin_index_bound c9s 0 0xE5 0x9E (by decide) (Or.inl (by decide))).1
      (by decide)⟩

end Emu

namespace Emu

theorem findPinFrom_none (pins : Nat → Bool) (fuel : Nat) :
    ∀ i, (∀ j, i ≤ j → j < i + fuel → pins j = false) →
      findPinFrom pins i fuel = none := by
  induction fuel with
  | zero => intro i _; rfl
  | succ n ih =>
    intro i h
    unfold findPinFrom
    rw [if_neg (by simp [h i (le_refl i) (by omega)])]
    exact ih (i + 1) (fun j hj1 hj2 => h j (by omega) (by omega))

theorem firstSetPin_none (pins : Nat → Bool) (h : ∀ i < 16, pins i = false) :
    firstSetPin pins = none :=
  findPinFrom_none pins 16 0 (fun j _ hj => h j (by omega))

theorem findPinFrom_min (pins : Nat → Bool) (fuel : Nat) :
    ∀ i k, i ≤ k → k < i + fuel → pins k = true →
      (∀ j, i ≤ j → j < k → pins j = false) →
      findPinFrom pins i fuel = some k := by
  induction fuel with
  | zero => intro i k h1 h2 _ _; omega
  | succ n ih =>
    intro i k h1 h2 hk hmin
    unfold findPinFrom
    by_cases hi : i = k
    · subst hi
      rw [if_pos hk]
    · rw [if_neg (by simp [hmin i (le_refl i) (by omega)])]
      exact ih (i + 1) k (by omega) (by omega) hk (fun j hj1 hj2 => hmin j (by omega) hj2)

theorem firstSetPin_min (pins : Nat → Bool) (k : Nat) (hk16 : k < 16)
    (hk : pins k = true) (hmin : ∀ j < k, pins j = false) :
    firstSetPin pins = some k :=
  findPinFrom_min pins 16 0 k (Nat.zero_le k) (by omega) hk
    (fun j _ hj => hmin j hj)

theorem wait_key_exec (s : Chip8) (reg : Nat)
    (hpins : ∀ i < 16, s.input_pins i = false) :
    lduExecute reg 0x0A s = some s := by
  unfold lduExecute
  rw [if_neg (by decide), if_pos rfl]
  rw [firstSetPin_none s.input_pins hpins]

theorem tick_eq (s : Chip8) (hcsd : s.cycles_since_timer_dec < 255) :
    tick s = { s with
      cycles_since_timer_dec := (if (s.cycles_since_timer_dec + 1) % CHIP8_TIMER_RESOLUTION = 0 then 0 else s.cycles_since_timer_dec + 1)
      delay_timer := (if (s.cycles_since_timer_dec + 1) % CHIP8_TIMER_RESOLUTION = 0 then s.delay_timer - 1 else s.delay_timer)
      sound_timer := (if (s.cycles_since_timer_dec + 1) % CHIP8_TIMER_RESOLUTION = 0 then s.sound_timer - 1 else s.sound_timer) } := by
  simp only [tick]
  rw [Nat.mod_eq_of_lt (show s.cycles_since_timer_dec + 1 < 256 by omega)]
  by_cases h10 : (s.cycles_since_timer_dec + 1) % CHIP8_TIMER_RESOLUTION = 0
  · simp only [h10, if_pos, if_true]
    rcases Nat.eq_zero_or_pos s.delay_timer with hd | hd <;>
      rcases Nat.eq_zero_or_pos s.sound_timer with hs | hs <;>
        simp_all
  · simp only [h10, if_neg, if_false]

/-- C10: a `cycle` that executes 0xFX0A with no input pin set leaves
every field unchanged except the timer subsystem:
`cycles_since_timer_dec` is bumped, and on the cycle where the bumped
counter reaches the timer resolution both timers are decremented
(floored at 0) and the counter resets; registers, memory, pc, index,
stack, stack pointer, framebuffer and draw flag are untouched. -/
theorem wait_cycle_frame_property (s : Chip8) (rnd : Nat)
    (hpc : s.program_counter ≤ 4094)
    (hhi : s.memory s.program_counter % 256 / 16 = 0xF)
    (hlo : s.memory (s.program_counter + 1) % 256 = 0x0A)
    (hpins : ∀ i < 16, s.input_pins i = false)
    (hcsd : s.cycles_since_timer_dec < 255) :
    cycle rnd s = some { s with
      cycles_since_timer_dec := (if (s.cycles_since_timer_dec + 1) % CHIP8_TIMER_RESOLUTION = 0 then 0 else s.cycles_since_timer_dec + 1)
      delay_timer := (if (s.cycles_since_timer_dec + 1) % CHIP8_TIMER_RESOLUTION = 0 then s.delay_timer - 1 else s.delay_timer)
      sound_timer := (if (s.cycles_since_timer_dec + 1) % CHIP8_TIMER_RESOLUTION = 0 then s.sound_timer - 1 else s.sound_timer) } := by
  rw [cycle_eq rnd hpc]
  rw [execute_classF rnd s hhi]
  have hvalue : (Opcode.new (s.memory s.program_counter)
      (s.memory (s.program_counter + 1))).value = 0x0A := by
    unfold Opcode.new Opcode.value
    dsimp only
    omega
  rw [hvalue]
  rw [wait_key_exec _ _ hpins]
  show some (tick s) = _
  rw [tick_eq s hcsd]

/-- C10 witness: the frame property at the concrete waiting state with
cycles_since_timer_dec = 9 and delay_timer = 3 (a decrement cycle). -/
theorem wait_cycle_frame_property_witness :
    c10s.program_counter ≤ 4094 ∧
    c10s.memory c10s.program_counter % 256 / 16 = 0xF ∧
    c10s.memory (c10s.program_counter + 1) % 256 = 0x0A ∧
    (∀ i < 16, c10s.input_pins i = false) ∧
    c10s.cycles_since_timer_dec < 255 ∧
    cycle 0 c10s = some { c10s with
      cycles_since_timer_dec := (if (c10s.cycles_since_timer_dec + 1) % CHIP8_TIMER_RESOLUTION = 0 then 0 else c10s.cycles_since_timer_dec + 1)
      delay_timer := (if (c10s.cycles_since_timer_dec + 1) % CHIP8_TIMER_RESOLUTION = 0 then c10s.delay_timer - 1 else c10s.delay_timer)
      sound_timer := (if (c10s.cycles_since_timer_dec + 1) % CHIP8_TIMER_RESOLUTION = 0 then c10s.sound_timer - 1 else c10s.sound_timer) } :=
  ⟨by decide, by decide, by decide, by decide, by decide,
    wait_cycle_frame_property c10s 0 (by decide) (by decide) (by decide)
      (by decide) (by decide)⟩

end Emu

namespace Emu

theorem ldu_wait_found (s : Chip8) (reg i : Nat)
    (hfind : firstSetPin s.input_pins = some i) :
    lduExecute reg 0x0A s =
      increment_program_counter { s with registers := upd s.registers reg i } := by
  unfold lduExecute
  rw [if_neg (by decide), if_pos rfl, hfind]

theorem cycle_wait_eq (s : Chip8) (rnd : Nat)
    (hpc : s.program_counter ≤ 4094)
    (hhi : s.memory s.program_counter % 256 / 16 = 0xF)
    (hlo : s.memory (s.program_counter + 1) % 256 = 0x0A)
    (hpins : ∀ i < 16, s.input_pins i = false) :
    cycle rnd s = some (tick s) := by
  rw [cycle_eq rnd hpc]
  rw [execute_classF rnd s hhi]
  have hvalue : (Opcode.new (s.memory s.program_counter)
      (s.memory (s.program_counter + 1))).value = 0x0A := by
    unfold Opcode.new Opcode.value
    dsimp only
    omega
  rw [hvalue]
  rw [wait_key_exec _ _ hpins]
  rfl

theorem cycle_key_found (s : Chip8) (rn X i : Nat)
    (hpc : s.program_counter ≤ 4093)
    (hhi : s.memory s.program_counter % 256 / 16 = 0xF)
    (hX : s.memory s.program_counter % 16 = X)
    (hlo : s.memory (s.program_counter + 1) % 256 = 0x0A)
    (hfind : firstSetPin s.input_pins = some i) :
    (cycle rn s).map (fun u => (u.program_counter, u.registers X)) =
      some (s.program_counter + 2, i) := by
  rw [cycle_eq rn (by omega)]
  rw [execute_classF rn s hhi]
  have hvalue : (Opcode.new (s.memory s.program_counter)
      (s.memory (s.program_counter + 1))).value = 0x0A := by
    unfold Opcode.new Opcode.value
    dsimp only
    omega
  have hreg : (Opcode.new (s.memory s.program_counter)
      (s.memory (s.program_counter + 1))).reg = X := hX
  rw [hvalue, hreg]
  rw [ldu_wait_found _ _ _ hfind]
  rw [increment_pc_eq (by rw [Nat.mod_eq_of_lt (show s.program_counter + 2 < 65536 by omega)]; omega)]
  show some ((tick { s with registers := upd s.registers X i, program_counter := (s.program_counter + 2) % 65536 }).program_counter, (tick { s with registers := upd s.registers X i, program_counter := (s.program_counter + 2) % 65536 }).registers X) = some (s.program_counter + 2, i)
  rw [tick_pc, tick_registers]
  show some (((s.program_counter + 2) % 65536 : Nat), upd s.registers X i X) = _
  rw [Nat.mod_eq_of_lt (show s.program_counter + 2 < 65536 by omega)]
  simp [upd]

/-- C6: from a state whose fetched instruction is 0xFX0A with no input
pin set, any number of chained cycles leaves the program counter
unchanged (the instruction is re-fetched each time); and once the host
sets pin i, the very next cycle stores i — the lowest-numbered set
pin — into Vx and advances the program counter by exactly 2, so the
wait instruction is not executed again. -/
theorem wait_key_pc_semantics (n X i rn : Nat) (f : Nat → Chip8) (r : Nat → Nat)
    (hchain : ∀ k < n, cycle (r k) (f k) = some (f (k + 1)))
    (hpins : ∀ j < 16, (f 0).input_pins j = false)
    (hpc : (f 0).program_counter ≤ 4093)
    (hhi : (f 0).memory (f 0).program_counter % 256 / 16 = 0xF)
    (hX : (f 0).memory (f 0).program_counter % 16 = X)
    (hlo : (f 0).memory ((f 0).program_counter + 1) % 256 = 0x0A)
    (hi16 : i < 16) :
    (∀ k ≤ n, (f k).program_counter = (f 0).program_counter) ∧
    (cycle rn { f n with input_pins := updB (f n).input_pins i true }).map
        (fun u => (u.program_counter, u.registers X)) =
      some ((f 0).program_counter + 2, i) := by
  have key : ∀ k, k ≤ n →
      (f k).program_counter = (f 0).program_counter ∧
      (f k).memory = (f 0).memory ∧
      (f k).input_pins = (f 0).input_pins := by
    intro k
    induction k with
    | zero => exact fun _ => ⟨rfl, rfl, rfl⟩
    | succ m ih =>
      intro hk
      obtain ⟨hpcm, hmemm, hpinm⟩ := ih (by omega)
      have hstep := hchain m (by omega)
      have heq : cycle (r m) (f m) = some (tick (f m)) := by
        apply cycle_wait_eq
        · rw [hpcm]; omega
        · rw [hmemm, hpcm]; exact hhi
        · rw [hmemm, hpcm]; exact hlo
        · intro j hj; rw [hpinm]; exact hpins j hj
      rw [heq] at hstep
      have hfm : f (m + 1) = tick (f m) := (Option.some.inj hstep).symm
      rw [hfm, tick_pc, tick_memory, tick_input_pins]
      exact ⟨hpcm, hmemm, hpinm⟩
  obtain ⟨hpcn, hmemn, hpinn⟩ := key n (le_refl n)
  refine ⟨fun k hk => (key k hk).1, ?_⟩
  have hfind2 : firstSetPin
      ({ f n with input_pins := updB (f n).input_pins i true } : Chip8).input_pins = some i := by
    show firstSetPin (updB (f n).input_pins i true) = some i
    rw [hpinn]
    apply firstSetPin_min _ i hi16
    · simp [updB]
    · intro j hj
      have hji : j ≠ i := by omega
      simp only [updB, if_neg hji]
      exact hpins j (by omega)
  have hb := cycle_key_found
    ({ f n with input_pins := updB (f n).input_pins i true }) rn X i
    (show (f n).program_counter ≤ 4093 by rw [hpcn]; omega)
    (show (f n).memory (f n).program_counter % 256 / 16 = 0xF by
      rw [hmemn, hpcn]; exact hhi)
    (show (f n).memory (f n).program_counter % 16 = X by
      rw [hmemn, hpcn]; exact hX)
    (show (f n).memory ((f n).program_counter + 1) % 256 = 0x0A by
      rw [hmemn, hpcn]; exact hlo)
    hfind2
  rw [hb]
  show some ((f n).program_counter + 2, i) = _
  rw [hpcn]

/-- C6 witness: two waiting cycles on instruction 0xF50A, then pin 3 is
set and the next cycle delivers V5 = 3 and pc 0x202. -/
theorem wait_key_pc_semantics_witness :
    (∀ k < 2, cycle 0 (cycleIter c6s k) = some (cycleIter c6s (k + 1))) ∧
    (∀ j < 16, (cycleIter c6s 0).input_pins j = false) ∧
    (cycleIter c6s 0).program_counter ≤ 4093 ∧
    (cycleIter c6s 0).memory (cycleIter c6s 0).program_counter % 256 / 16 = 0xF ∧
    (cycleIter c6s 0).memory (cycleIter c6s 0).program_counter % 16 = 5 ∧
    (cycleIter c6s 0).memory ((cycleIter c6s 0).program_counter + 1) % 256 = 0x0A ∧
    (3 : Nat) < 16 ∧
    ((∀ k ≤ 2, (cycleIter c6s k).program_counter = (cycleIter c6s 0).program_counter) ∧
      (cycle 0 { cycleIter c6s 2 with
          input_pins := updB (cycleIter c6s 2).input_pins 3 true }).map
          (fun u => (u.program_counter, u.registers 5)) =
        some ((cycleIter c6s 0).program_counter + 2, 3)) :=
  ⟨by intro k hk; interval_cases k <;> rfl,
    by decide, by decide, by decide, by decide, by decide, by decide,
    wait_key_pc_semantics 2 5 3 0 (cycleIter c6s) (fun _ => 0)
      (by intro k hk; interval_cases k <;> rfl)
      (by decide) (by decide) (by decide) (by decide) (by decide) (by decide)⟩

theorem cycle_timer_step (s s' : Chip8) (rnd : Nat)
    (h : cycle rnd s = some s')
    (hu : ((next_instruction s).bind (fun op => op.execute rnd s)).map
        (fun u => (u.delay_timer, u.sound_timer, u.cycles_since_timer_dec)) =
      some (s.delay_timer, s.sound_timer, s.cycles_since_timer_dec))
    (hcs : s.cycles_since_timer_dec < 255) :
    s'.cycles_since_timer_dec = (if (s.cycles_since_timer_dec + 1) % CHIP8_TIMER_RESOLUTION = 0 then 0 else s.cycles_since_timer_dec + 1) ∧
    s'.delay_timer = (if (s.cycles_since_timer_dec + 1) % CHIP8_TIMER_RESOLUTION = 0 then s.delay_timer - 1 else s.delay_timer) ∧
    s'.sound_timer = (if (s.cycles_since_timer_dec + 1) % CHIP8_TIMER_RESOLUTION = 0 then s.sound_timer - 1 else s.sound_timer) := by
  unfold cycle at h
  cases he : (next_instruction s).bind (fun op => op.execute rnd s) with
  | none => rw [he] at h; cases h
  | some u =>
    rw [he] at h
    rw [he] at hu
    have hu2 : (u.delay_timer, u.sound_timer, u.cycles_since_timer_dec) =
        (s.delay_timer, s.sound_timer, s.cycles_since_timer_dec) := Option.some.inj hu
    have hd : u.delay_timer = s.delay_timer := congrArg (fun p => p.1) hu2
    have hsnd : u.sound_timer = s.sound_timer := congrArg (fun p => p.2.1) hu2
    have hc : u.cycles_since_timer_dec = s.cycles_since_timer_dec :=
      congrArg (fun p => p.2.2) hu2
    have hst : s' = tick u := (Option.some.inj h).symm
    subst hst
    rw [tick_eq u (show u.cycles_since_timer_dec < 255 by rw [hc]; omega)]
    refine ⟨?_, ?_, ?_⟩ <;> simp only [hc, hd, hsnd]

/-- C7: over a chain of ten cycles whose executed instructions leave the
timer fields untouched, starting with delay_timer = 1 and
cycles_since_timer_dec = 0: the counter is bumped each cycle, both
timers are decremented exactly when the counter reaches the resolution
(10), and delay_timer reads 0 only after the tenth call, never before;
sound_timer likewise loses exactly one unit, on the tenth call. -/
theorem timer_cadence_ten_cycles (f : Nat → Chip8) (r : Nat → Nat)
    (hchain : ∀ k < 10, cycle (r k) (f k) = some (f (k + 1)))
    (huntouched : ∀ k < 10,
      ((next_instruction (f k)).bind (fun op => op.execute (r k) (f k))).map
          (fun u => (u.delay_timer, u.sound_timer, u.cycles_since_timer_dec)) =
        some ((f k).delay_timer, (f k).sound_timer, (f k).cycles_since_timer_dec))
    (hdelay : (f 0).delay_timer = 1)
    (hcsd : (f 0).cycles_since_timer_dec = 0) :
    (∀ k ≤ 9, (f k).delay_timer = 1) ∧
    (∀ k ≤ 9, (f k).sound_timer = (f 0).sound_timer) ∧
    (f 10).delay_timer = 0 ∧
    (f 10).sound_timer = (f 0).sound_timer - 1 ∧
    (f 10).cycles_since_timer_dec = 0 := by
  have inv : ∀ k, k ≤ 9 → (f k).delay_timer = 1 ∧
      (f k).cycles_since_timer_dec = k ∧ (f k).sound_timer = (f 0).sound_timer := by
    intro k
    induction k with
    | zero => exact fun _ => ⟨hdelay, hcsd, rfl⟩
    | succ m ih =>
      intro hk
      obtain ⟨d, c, snd⟩ := ih (by omega)
      obtain ⟨sc, sd, ss⟩ := cycle_timer_step (f m) (f (m + 1)) (r m)
        (hchain m (by omega)) (huntouched m (by omega)) (by rw [c]; omega)
      have hne : ((f m).cycles_since_timer_dec + 1) % CHIP8_TIMER_RESOLUTION ≠ 0 := by
        rw [c]
        simp only [CHIP8_TIMER_RESOLUTION]
        omega
      refine ⟨?_, ?_, ?_⟩
      · rw [sd, if_neg hne]; exact d
      · rw [sc, if_neg hne, c]
      · rw [ss, if_neg hne]; exact snd
  obtain ⟨d9, c9, s9⟩ := inv 9 (by omega)
  obtain ⟨sc, sd, ss⟩ := cycle_timer_step (f 9) (f 10) (r 9)
    (hchain 9 (by omega)) (huntouched 9 (by omega)) (by rw [c9]; omega)
  have h0 : ((f 9).cycles_since_timer_dec + 1) % CHIP8_TIMER_RESOLUTION = 0 := by
    rw [c9]
    decide
  refine ⟨fun k hk => (inv k hk).1, fun k hk => (inv k hk).2.2, ?_, ?_, ?_⟩
  · rw [sd, if_pos h0, d9]
  · rw [ss, if_pos h0, s9]
  · rw [sc, if_pos h0]

/-- C7 witness: ten cycles of the self-jump 0x1200 with delay_timer = 1
and sound_timer = 5. -/
theorem timer_cadence_ten_cycles_witness :
    (∀ k < 10, cycle 0 (cycleIter c7s k) = some (cycleIter c7s (k + 1))) ∧
    (∀ k < 10,
      ((next_instruction (cycleIter c7s k)).bind
          (fun op => op.execute 0 (cycleIter c7s k))).map
          (fun u => (u.delay_timer, u.sound_timer, u.cycles_since_timer_dec)) =
        some ((cycleIter c7s k).delay_timer, (cycleIter c7s k).sound_timer,
          (cycleIter c7s k).cycles_since_timer_dec)) ∧
    (cycleIter c7s 0).delay_timer = 1 ∧
    (cycleIter c7s 0).cycles_since_timer_dec = 0 ∧
    ((∀ k ≤ 9, (cycleIter c7s k).delay_timer = 1) ∧
      (∀ k ≤ 9, (cycleIter c7s k).sound_timer = (cycleIter c7s 0).sound_timer) ∧
      (cycleIter c7s 10).delay_timer = 0 ∧
      (cycleIter c7s 10).sound_timer = (cycleIter c7s 0).sound_timer - 1 ∧
      (cycleIter c7s 10).cycles_since_timer_dec = 0) :=
  ⟨by intro k hk; interval_cases k <;> rfl,
    by intro k hk; interval_cases k <;> rfl,
    by decide, by decide,
    timer_cadence_ten_cycles (cycleIter c7s) (fun _ => 0)
      (by intro k hk; interval_cases k <;> rfl)
      (by intro k hk; interval_cases k <;> rfl)
      (by decide) (by decide)⟩

end Emu

namespace Emu

theorem sys_pc {a : Nat} {s t : Chip8} (h : sysExecute a s = some t) :
    t.program_counter = (s.program_counter + 2) % 65536 ∨ t.program_counter < 4096 := by
  unfold sysExecute at h
  split at h
  · cases h
    left
    rfl
  · split at h
    · split at h
      · right
        exact increment_pc_lt h
      · cases h
    · cases h

theorem jmp_pc {a : Nat} {s t : Chip8} (h : jmpExecute a s = some t) :
    t.program_counter = a := by
  unfold jmpExecute at h
  cases h
  rfl

theorem call_pc {a : Nat} {s t : Chip8} (h : callExecute a s = some t) :
    t.program_counter = a := by
  unfold callExecute at h
  split at h
  · cases h
    rfl
  · cases h

theorem jmpr_pc {a : Nat} {s t : Chip8} (h : jmprExecute a s = some t) :
    t.program_counter = (a + s.registers 0) % 65536 := by
  unfold jmprExecute at h
  cases h
  rfl

theorem se_pc {reg v : Nat} {s t : Chip8} (h : seExecute reg v s = some t) :
    t.program_counter < 4096 :=
  bind_increment_pc_lt h

theorem sne_pc {reg v : Nat} {s t : Chip8} (h : sneExecute reg v s = some t) :
    t.program_counter < 4096 :=
  bind_increment_pc_lt h

theorem sre_pc {o1 o2 o3 : Nat} {s t : Chip8} (h : sreExecute o1 o2 o3 s = some t) :
    t.program_counter < 4096 := by
  unfold sreExecute at h
  split at h
  · exact bind_increment_pc_lt h
  · cases h

theorem srne_pc {o1 o2 o3 : Nat} {s t : Chip8} (h : srneExecute o1 o2 o3 s = some t) :
    t.program_counter < 4096 := by
  unfold srneExecute at h
  split at h
  · exact bind_increment_pc_lt h
  · cases h

theorem ldr_pc {reg v : Nat} {s t : Chip8} (h : ldrExecute reg v s = some t) :
    t.program_counter < 4096 :=
  increment_pc_lt h

theorem add_pc {reg v : Nat} {s t : Chip8} (h : addExecute reg v s = some t) :
    t.program_counter < 4096 :=
  increment_pc_lt h

theorem reg_pc {o1 o2 o3 : Nat} {s t : Chip8} (h : regExecute o1 o2 o3 s = some t) :
    t.program_counter < 4096 :=
  bind_increment_pc_lt h

theorem ld_pc {a : Nat} {s t : Chip8} (h : ldExecute a s = some t) :
    t.program_counter < 4096 :=
  increment_pc_lt h

theorem rnd_pc {rnd reg v : Nat} {s t : Chip8} (h : rndExecute rnd reg v s = some t) :
    t.program_counter < 4096 :=
  increment_pc_lt h

theorem drw_pc {o1 o2 o3 : Nat} {s t : Chip8} (h : drwExecute o1 o2 o3 s = some t) :
    t.program_counter < 4096 := by
  unfold drwExecute at h
  exact increment_pc_lt h

theorem sk_pc {reg v : Nat} {s t : Chip8} (h : skExecute reg v s = some t) :
    t.program_counter < 4096 := by
  unfold skExecute at h
  cases hsk : (if v = 0x9E then
      (if s.registers reg < 16 then some (s.input_pins (s.registers reg)) else none)
    else if v = 0xA1 then
      (if s.registers reg < 16 then some (! s.input_pins (s.registers reg)) else none)
    else none) with
  | none =>
    rw [hsk] at h
    cases h
  | some b =>
    rw [hsk] at h
    exact bind_increment_pc_lt h

theorem ldu_pc {reg v : Nat} {s t : Chip8} (h : lduExecute reg v s = some t) :
    t.program_counter < 4096 ∨ t = s := by
  unfold lduExecute at h
  by_cases h07 : v = 0x07
  · rw [if_pos h07] at h
    exact Or.inl (increment_pc_lt h)
  rw [if_neg h07] at h
  by_cases h0A : v = 0x0A
  · rw [if_pos h0A] at h
    cases hm : firstSetPin s.input_pins with
    | some i =>
      rw [hm] at h
      exact Or.inl (increment_pc_lt h)
    | none =>
      rw [hm] at h
      cases h
      exact Or.inr rfl
  rw [if_neg h0A] at h
  by_cases h15 : v = 0x15
  · rw [if_pos h15] at h
    exact Or.inl (increment_pc_lt h)
  rw [if_neg h15] at h
  by_cases h18 : v = 0x18
  · rw [if_pos h18] at h
    exact Or.inl (increment_pc_lt h)
  rw [if_neg h18] at h
  by_cases h1E : v = 0x1E
  · rw [if_pos h1E] at h
    exact Or.inl (increment_pc_lt h)
  rw [if_neg h1E] at h
  by_cases h29 : v = 0x29
  · rw [if_pos h29] at h
    split at h
    · exact Or.inl (increment_pc_lt h)
    · cases h
  rw [if_neg h29] at h
  by_cases h33 : v = 0x33
  · rw [if_pos h33] at h
    split at h
    · exact Or.inl (increment_pc_lt h)
    · cases h
  rw [if_neg h33] at h
  by_cases h55 : v = 0x55
  · rw [if_pos h55] at h
    exact Or.inl (increment_pc_lt h)
  rw [if_neg h55] at h
  by_cases h65 : v = 0x65
  · rw [if_pos h65] at h
    exact Or.inl (increment_pc_lt h)
  rw [if_neg h65] at h
  cases h

end Emu

namespace Emu

/-- C4 counterexample: a completing cycle that executes JP V0 (0xBFFF)
with V0 = 0xFF from pc 0x200 ends with pc = 0x10FE = 4350 ≥ 4096, so the
program counter does not stay below 4096. -/
theorem jmpr_pc_exceeds_4096 :
    (cycle 0 c4s).map (fun t => t.program_counter) = some 4350 ∧
    ¬ (4350 : Nat) < 4096 :=
  ⟨by decide, by decide⟩

/-- C4 (amended): whenever `cycle` completes from a state whose V0 is a
byte, the resulting program counter is below 0x1100 = 4352; the claimed
bound 4096 holds for every instruction class except JP V0 (0xBNNN),
which sets pc = NNN + V0 (≤ 0xFFF + 0xFF = 0x10FE) with no range
check. -/
theorem cycle_pc_lt_4352 (s s' : Chip8) (rnd : Nat)
    (hr : s.registers 0 < 256)
    (h : cycle rnd s = some s') : s'.program_counter < 4352 := by
  unfold cycle next_instruction at h
  by_cases hpc : s.program_counter ≤ 4094
  case neg =>
    rw [if_neg hpc] at h
    cases h
  rw [if_pos hpc] at h
  have h2 : ((Opcode.new (s.memory s.program_counter)
      (s.memory (s.program_counter + 1))).execute rnd s).map tick = some s' := h
  cases he : (Opcode.new (s.memory s.program_counter)
      (s.memory (s.program_counter + 1))).execute rnd s with
  | none =>
    rw [he] at h2
    cases h2
  | some u =>
    rw [he] at h2
    have hs' : s' = tick u := (Option.some.inj h2).symm
    rw [hs', tick_pc]
    have hic : (Opcode.new (s.memory s.program_counter)
        (s.memory (s.program_counter + 1))).instruction_class < 16 := by
      unfold Opcode.new
      dsimp only
      omega
    have haddr : (Opcode.new (s.memory s.program_counter)
        (s.memory (s.program_counter + 1))).address < 4096 := by
      unfold Opcode.new Opcode.address
      dsimp only
      omega
    have h16 : (Opcode.new (s.memory s.program_counter)
        (s.memory (s.program_counter + 1))).instruction_class = 0 ∨
        (Opcode.new (s.memory s.program_counter) (s.memory (s.program_counter + 1))).instruction_class = 1 ∨
        (Opcode.new (s.memory s.program_counter) (s.memory (s.program_counter + 1))).instruction_class = 2 ∨
        (Opcode.new (s.memory s.program_counter) (s.memory (s.program_counter + 1))).instruction_class = 3 ∨
        (Opcode.new (s.memory s.program_counter) (s.memory (s.program_counter + 1))).instruction_class = 4 ∨
        (Opcode.new (s.memory s.program_counter) (s.memory (s.program_counter + 1))).instruction_class = 5 ∨
        (Opcode.new (s.memory s.program_counter) (s.memory (s.program_counter + 1))).instruction_class = 6 ∨
        (Opcode.new (s.memory s.program_counter) (s.memory (s.program_counter + 1))).instruction_class = 7 ∨
        (Opcode.new (s.memory s.program_counter) (s.memory (s.program_counter + 1))).instruction_class = 8 ∨
        (Opcode.new (s.memory s.program_counter) (s.memory (s.program_counter + 1))).instruction_class = 9 ∨
        (Opcode.new (s.memory s.program_counter) (s.memory (s.program_counter + 1))).instruction_class = 10 ∨
        (Opcode.new (s.memory s.program_counter) (s.memory (s.program_counter + 1))).instruction_class = 11 ∨
        (Opcode.new (s.memory s.program_counter) (s.memory (s.program_counter + 1))).instruction_class = 12 ∨
        (Opcode.new (s.memory s.program_counter) (s.memory (s.program_counter + 1))).instruction_class = 13 ∨
        (Opcode.new (s.memory s.program_counter) (s.memory (s.program_counter + 1))).instruction_class = 14 ∨
        (Opcode.new (s.memory s.program_counter) (s.memory (s.program_counter + 1))).instruction_class = 15 := by
      omega
    rcases h16 with hc|hc|hc|hc|hc|hc|hc|hc|hc|hc|hc|hc|hc|hc|hc|hc
    · rw [execute_class0 rnd s hc] at he
      rcases sys_pc he with h1 | h1
      · rw [h1, Nat.mod_eq_of_lt (by omega)]
        omega
      · omega
    · rw [execute_class1 rnd s hc] at he
      rw [jmp_pc he]
      omega
    · rw [execute_class2 rnd s hc] at he
      rw [call_pc he]
      omega
    · rw [execute_class3 rnd s hc] at he
      have := se_pc he
      omega
    · rw [execute_class4 rnd s hc] at he
      have := sne_pc he
      omega
    · rw [execute_class5 rnd s hc] at he
      have := sre_pc he
      omega
    · rw [execute_class6 rnd s hc] at he
      have := ldr_pc he
      omega
    · rw [execute_class7 rnd s hc] at he
      have := add_pc he
      omega
    · rw [execute_class8 rnd s hc] at he
      have := reg_pc he
      omega
    · rw [execute_class9 rnd s hc] at he
      have := srne_pc he
      omega
    · rw [execute_classA rnd s hc] at he
      have := ld_pc he
      omega
    · rw [execute_classB rnd s hc] at he
      rw [jmpr_pc he, Nat.mod_eq_of_lt (by omega)]
      omega
    · rw [execute_classC rnd s hc] at he
      have := rnd_pc he
      omega
    · rw [execute_classD rnd s hc] at he
      have := drw_pc he
      omega
    · rw [execute_classE rnd s hc] at he
      have := sk_pc he
      omega
    · rw [execute_classF rnd s hc] at he
      rcases ldu_pc he with h1 | h1
      · omega
      · rw [h1]
        omega

/-- C4 witness: the bound applied to the completing JP V0 cycle that
overshoots 4096 (ending at pc 4350 < 4352). -/
theorem cycle_pc_lt_4352_witness :
    c4s.registers 0 < 256 ∧ ((cycle 0 c4s).getD c4s).program_counter < 4352 :=
  ⟨by decide, cycle_pc_lt_4352 c4s ((cycle 0 c4s).getD c4s) 0 (by decide) rfl⟩

end Emu

namespace Emu

theorem foldl_set_memory_some (p : List Nat) (l : List Nat) :
    ∀ s0 : Chip8, (∀ i ∈ l, 0x200 + i < 4096) →
      ∃ t, l.foldl (fun acc i => acc.bind (set_memory_byte (p.getD i 0) (0x200 + i)))
        (some s0) = some t := by
  induction l with
  | nil => exact fun s0 _ => ⟨s0, rfl⟩
  | cons a as ih =>
    intro s0 hall
    have ha : 0x200 + a < 4096 := hall a (List.mem_cons_self a as)
    have hstep : set_memory_byte (p.getD a 0) (0x200 + a) s0 =
        some { s0 with memory := upd s0.memory (0x200 + a) (p.getD a 0) } := by
      unfold set_memory_byte
      rw [if_pos ha]
    rw [List.foldl_cons]
    show ∃ t, as.foldl _ ((some s0).bind (set_memory_byte (p.getD a 0) (0x200 + a))) = some t
    rw [Option.some_bind, hstep]
    exact ih _ (fun i hi => hall i (List.mem_cons_of_mem a hi))

theorem load_program_bytes_some (p : List Nat) (s : Chip8)
    (h : p.length ≤ 3584) : ∃ t, load_program_bytes p s = some t := by
  unfold load_program_bytes
  exact foldl_set_memory_some p (List.range p.length) s
    (fun i hi => by
      have := List.mem_range.mp hi
      omega)

/-- C8: `load_program` returns `ProgramTooLarge(len)` exactly when the
program exceeds 3584 bytes, and on that failure the returned machine is
the input machine itself — the error is reported before any memory
mutation, so the copy is all-or-nothing; for programs of at most 3584
bytes the copy succeeds. -/
theorem load_program_too_large_iff (p : List Nat) (s : Chip8) :
    (p.length > 3584 →
      load_program p s =
        some (Except.error (LoadProgramError.ProgramTooLarge p.length), s)) ∧
    (p.length ≤ 3584 →
      (load_program p s).map (fun x => x.1) = some (Except.ok p.length)) := by
  constructor
  · intro hlen
    unfold load_program
    rw [if_pos (show p.length > CHIP8_MAX_PROGRAM_SIZE from hlen)]
  · intro hlen
    unfold load_program
    rw [if_neg (show ¬ p.length > CHIP8_MAX_PROGRAM_SIZE by
      simp only [CHIP8_MAX_PROGRAM_SIZE]
      omega)]
    obtain ⟨t, ht⟩ := load_program_bytes_some p s hlen
    rw [ht]
    rfl

/-- C8 witness: a 3585-byte program is rejected with the machine
untouched, while a 2-byte program loads successfully. -/
theorem load_program_too_large_iff_witness :
    load_program (List.replicate 3585 0) baseState =
      some (Except.error
        (LoadProgramError.ProgramTooLarge (List.replicate 3585 0).length), baseState) ∧
    (load_program [1, 2] baseState).map (fun x => x.1) =
      some (Except.ok ([1, 2] : List Nat).length) :=
  ⟨(load_program_too_large_iff (List.replicate 3585 0) baseState).1
      (by rw [List.length_replicate]; omega),
    (load_program_too_large_iff [1, 2] baseState).2 (by simp)⟩

end Emu
